import Mathlib

/-!
# A verification development for `lsrs`

This file gives a shallow embedding in Lean of the core of the `lsrs`
directory-listing utility (source files `src/cli.rs`, `src/entry.rs`,
`src/main.rs`, `src/display.rs`) and proves properties of the embedded
definitions.

Modelling conventions:

* Rust machine integers (`u64`, `u32`, `usize`) are modelled as `Nat`; where
  overflow or underflow matters it is made explicit (see `pad_str`).
* Fallible operations (`io::Result`, `Option`-returning accessors) become
  `Option`/`Except` values; `std::process::exit(1)` and panics become
  explicit error outcomes.
* The filesystem is passed in as data: a directory read is a list of raw
  entries, each carrying the results of its `file_type()` and `metadata()`
  calls; a named path carries the results of `exists()`, `is_dir()`,
  `file_name()` and `metadata()`.
-/

namespace Lsrs

/-- The flag set produced by the clap parser (`src/cli.rs`, `struct Flags`).
The positional `path` argument is passed to `get_entries` separately, as in
the source. -/
structure Flags where
  show_hidden : Bool
  show_size : Bool
  human : Bool
  reverse_sort : Bool
  sort_by_size : Bool
  long_listing : Bool
  sort_by_modified_time : Bool
  stream_output : Bool
deriving DecidableEq

/-- `enum FileType { Dir, File }` from `src/entry.rs`. The derived Rust `Ord`
has `Dir < File`. -/
inductive FileType where
  | Dir
  | File
deriving DecidableEq

/-- The semantic fields of `std::fs::Metadata` that the program reads.
`modifiedElapsed` is the value of `metadata.modified().ok().and_then(|t|
t.elapsed().ok())` (in nanoseconds) at the moment the sort comparator runs;
`owner`/`group` are the names the uid/gid lookups resolve to (or the decimal
fallback), and `modifiedStr` is the chrono local-time `"%b %d %H:%M"`
rendering of the modification time.  These three depend on the environment
(clock, timezone, passwd database) and are therefore carried as data. -/
structure Metadata where
  size : Nat
  modifiedElapsed : Option Nat
  mode : Nat
  nlink : Nat
  owner : String
  group : String
  modifiedStr : String
deriving DecidableEq

/-- `struct Entry` from `src/entry.rs`: a name, a kind (`r#type` in the
source) and its metadata. -/
structure Entry where
  name : String
  type : FileType
  metadata : Metadata
deriving DecidableEq

/-- One raw result of the `fs::read_dir` iterator: the file name together
with the outcomes of the per-entry `file_type()` and `metadata()` calls
(`none` models an `Err` result discarded by `.ok()`). -/
structure RawEntry where
  name : String
  fileType : Option FileType
  metadata : Option Metadata
deriving DecidableEq

/-- What `fs::metadata`/`path.exists`/`path.is_dir`/`path.file_name` return
for the explicitly named target path. -/
structure PathView where
  pathExists : Bool
  isDir : Bool
  fileName : String
  meta : Option Metadata
deriving DecidableEq

/-- Outcome of one `fs::read_dir` call: whether it succeeded, and the
flattened iterator results when it did. -/
structure DirRead where
  readOk : Bool
  entries : List RawEntry
deriving DecidableEq

/-- The two abnormal outcomes of `get_entries`: an `io::Error` propagated
with `?`, and `std::process::exit(1)`. -/
inductive LsErr where
  | ioError
  | procExit
deriving DecidableEq

/-! ## Human-readable sizes (`bytes_to_human` in `src/display.rs` and
`src/main.rs`, and the padded variant in `src/entry.rs`) -/

/-- The unit table `const UNITS: [&str; 5]`. -/
def UNITS : List String := ["B", "K", "M", "G", "T"]

/-- Fuel-driven floor logarithm: `ilogAux n n` computes `n.ilog(1024)` for
`n ≥ 1` (the source guards the call with `bytes == 0`). -/
def ilogAux (fuel n : Nat) : Nat :=
  match fuel with
  | 0 => 0
  | fuel + 1 => if n < 1024 then 0 else ilogAux fuel (n / 1024) + 1

/-- `bytes.ilog(1024)` from the source (`u64::ilog`, floor base-1024 log). -/
def ilog1024 (n : Nat) : Nat := ilogAux n n

/-- Round `(num * 10) / den` to the nearest integer, ties to even: the number
of tenths that Rust's `{:.1}` float formatting prints for the exact rational
value `num / den`.  The source computes `num as f64 / den as f64`; this model
uses exact rational arithmetic in place of `f64` rounding (they agree on all
values appearing in the theorems below). -/
def roundTenths (num den : Nat) : Nat :=
  let q := num * 10 / den
  let r := num * 10 % den
  if 2 * r < den then q
  else if den < 2 * r then q + 1
  else if q % 2 = 0 then q else q + 1

/-- `bytes_to_human` from `src/display.rs` (lines 99-121) and `src/main.rs`
(lines 124-145); the two copies are identical.  For index 0 the scaled value
is the integral byte count and Rust's default `{}` float formatting prints it
with no decimal point; for higher indices `{:.1}` prints exactly one decimal
digit, modelled by `roundTenths`. -/
def bytes_to_human (bytes : Nat) : String :=
  if bytes = 0 then "0B"
  else
    let index := min (ilog1024 bytes) (UNITS.length - 1)
    if index = 0 then
      toString bytes ++ UNITS.getD index ""
    else
      let t := roundTenths bytes (1024 ^ index)
      toString (t / 10) ++ "." ++ toString (t % 10) ++ UNITS.getD index ""

/-- `pad_str` from `src/entry.rs` (lines 129-137).  `max_str_len - src.len()`
is a `usize` subtraction: when `src.len() > 6` it overflows, which panics
outright in debug builds; in release builds it wraps to a huge value that
passes the `pad_amt > 0` test and makes `" ".repeat(pad_amt)` abort with a
capacity overflow.  Either way the call never returns normally, modelled as
`.error`.  (The strings fed to it here are ASCII, so `src.len()` agrees with
`String.length`.) -/
def pad_str (src : String) : Except String String :=
  let max_str_len := 6
  if src.length ≤ max_str_len then
    let pad_amt := max_str_len - src.length
    if 0 < pad_amt then .ok (String.mk (List.replicate pad_amt ' ') ++ src)
    else .ok src
  else .error "attempt to subtract with overflow"

/-- `bytes_to_human` from `src/entry.rs` (lines 139-162): the same
`byte_string` computation as the `display.rs`/`main.rs` copies, with every
return value passed through `pad_str`. -/
def bytes_to_human_entry (bytes : Nat) : Except String String :=
  pad_str (bytes_to_human bytes)

/-! ## Permission strings (`parse_permissions`/`triplet` in `src/entry.rs`) -/

def S_IRUSR : Nat := 0o400
def S_IWUSR : Nat := 0o200
def S_IXUSR : Nat := 0o100
def S_IRGRP : Nat := 0o040
def S_IWGRP : Nat := 0o020
def S_IXGRP : Nat := 0o010
def S_IROTH : Nat := 0o004
def S_IWOTH : Nat := 0o002
def S_IXOTH : Nat := 0o001

/-- `triplet` from `src/entry.rs` (lines 204-216): the Rust `match` on
`(mode & read, mode & write, mode & execute)` with first-match semantics. -/
def triplet (mode read wr ex : Nat) : String :=
  match mode &&& read, mode &&& wr, mode &&& ex with
  | 0, 0, 0 => "---"
  | _, 0, 0 => "r--"
  | 0, _, 0 => "-w-"
  | 0, 0, _ => "--x"
  | _, 0, _ => "r-x"
  | _, _, 0 => "rw-"
  | 0, _, _ => "-wx"
  | _, _, _ => "rwx"

/-- `parse_permissions` from `src/entry.rs` (lines 197-202):
`[user, group, other].join("")`. -/
def parse_permissions (mode : Nat) : String :=
  triplet mode S_IRUSR S_IWUSR S_IXUSR ++
  triplet mode S_IRGRP S_IWGRP S_IXGRP ++
  triplet mode S_IROTH S_IWOTH S_IXOTH

/-- Spec-side rendering of one rwx triplet, following the spec's words: each
triplet is computed independently from the presence of its read, write and
execute bits. Used only to compare `triplet` against the specification. -/
def rwxOf (r w x : Bool) : String :=
  (if r then "r" else "-") ++ (if w then "w" else "-") ++ (if x then "x" else "-")

/-! ## The entry sort (`get_entries` in `src/entry.rs`, lines 262-289)

The comparator builds, per entry, the tuple
`(sort_by_size.then(u64::MAX - len), sort_by_modified_time.then(elapsed))`
of optional sub-keys, compares the tuples with the derived `Ord` (`None <
Some`, lexicographic pairs), reverses that result when `reverse_sort` is set
and finally puts the `FileType` comparison in front with `.then`. -/

/-- `u64::MAX`. -/
def U64_MAX : Nat := 2 ^ 64 - 1

/-- The derived `Ord` comparison of the two `FileType` variants
(`Dir < File`). -/
def FileType.cmp : FileType → FileType → Ordering
  | .Dir, .Dir => .eq
  | .Dir, .File => .lt
  | .File, .Dir => .gt
  | .File, .File => .eq

/-- Rust's derived `Ord` on `Option<u64>` / `Option<Duration>`:
`None < Some`, payloads compared naturally. -/
def optNatCmp : Option Nat → Option Nat → Ordering
  | none, none => .eq
  | none, some _ => .lt
  | some _, none => .gt
  | some x, some y => compare x y

/-- Rust's derived `Ord` on the pair of optional sub-keys (lexicographic). -/
def keyCmp (k₁ k₂ : Option Nat × Option Nat) : Ordering :=
  (optNatCmp k₁.1 k₂.1).then (optNatCmp k₁.2 k₂.2)

/-- The closure `key` inside the comparator: the composite sort key of one
entry.  `metadata.len() ≤ u64::MAX`, so the `u64` subtraction cannot
overflow; sizes are constrained to `≤ U64_MAX` wherever the theorems rely on
the descending order. -/
def entryKey (flags : Flags) (e : Entry) : Option Nat × Option Nat :=
  (if flags.sort_by_size then some (U64_MAX - e.metadata.size) else none,
   if flags.sort_by_modified_time then e.metadata.modifiedElapsed else none)

/-- The comparator passed to `sort_unstable_by`: compare the composite keys,
reverse that result when `reverse_sort` is set, and prepend the never-reversed
`FileType` comparison with `.then`. -/
def entryCmp (flags : Flags) (a b : Entry) : Ordering :=
  let ordering := keyCmp (entryKey flags a) (entryKey flags b)
  let ordering := if flags.reverse_sort then ordering.swap else ordering
  (FileType.cmp a.type b.type).then ordering

/-- The boolean "not greater" relation induced by the comparator; a sorted
output is non-decreasing for it. -/
def entryLe (flags : Flags) (a b : Entry) : Bool :=
  entryCmp flags a b != Ordering.gt

/-- Insert into a sorted list, keeping it sorted. -/
def insertBy {α : Type} (le : α → α → Bool) (a : α) : List α → List α
  | [] => [a]
  | b :: bs => if le a b then a :: b :: bs else b :: insertBy le a bs

/-- Insertion sort.  `slice::sort_unstable_by` guarantees only that the
result is some permutation of the input that is non-decreasing for the
comparator — the order of tied elements is unspecified (`SortSpecOf` states
that contract); this deterministic sort is one realisation of it. -/
def sortBy {α : Type} (le : α → α → Bool) : List α → List α
  | [] => []
  | a :: as => insertBy le a (sortBy le as)

/-- The sorting step of `get_entries`: the `sort_unstable_by` call runs only
when `sort_by_size || sort_by_modified_time` holds; otherwise the collected
order is returned untouched. -/
def sortEntries (flags : Flags) (entries : List Entry) : List Entry :=
  if flags.sort_by_size || flags.sort_by_modified_time then
    sortBy (entryLe flags) entries
  else entries

/-- The postcondition `slice::sort_unstable_by` establishes for `output` when
called on `input` with comparator `entryCmp flags`: a permutation of the
input, non-decreasing for the comparator.  Nothing more is guaranteed; in
particular the relative order of tied elements is unspecified. -/
def SortSpecOf (flags : Flags) (input output : List Entry) : Prop :=
  output.Perm input ∧ output.Pairwise (fun a b => entryLe flags a b = true)

/-! ## Entry collection (`get_entries` in `src/entry.rs`, lines 218-291) -/

/-- `is_hidden_folder` from `src/entry.rs` (lines 294-297): the source tests
the first byte of the raw file name against `b'.'`; since `'.'` is a
single-byte UTF-8 character this is the leading-character test.  (The `[0]`
indexing would panic on an empty name, which `read_dir` never produces.) -/
def is_hidden_folder (name : String) : Bool :=
  name.data.head? == some '.'

/-- The `filter_map` collection loop of `get_entries`: hidden names are
dropped when `show_hidden` is unset; an entry whose `file_type()` failed is
silently dropped by `.ok()`; an entry whose `metadata()` failed hits the
`eprintln! + std::process::exit(1)` arm, modelled as `.error .procExit`. -/
def collectEntries (flags : Flags) : List RawEntry → Except LsErr (List Entry)
  | [] => .ok []
  | r :: rs =>
    if !flags.show_hidden && is_hidden_folder r.name then
      collectEntries flags rs
    else
      match r.fileType with
      | none => collectEntries flags rs
      | some t =>
        match r.metadata with
        | none => .error .procExit
        | some m => (collectEntries flags rs).map (fun es => ⟨r.name, t, m⟩ :: es)

/-- The shared tail of `get_entries`: propagate a `read_dir` failure with
`?`, collect, then sort. -/
def listDirectory (dir : DirRead) (flags : Flags) : Except LsErr (List Entry) :=
  if !dir.readOk then .error .ioError
  else (collectEntries flags dir.entries).map (sortEntries flags)

/-- `get_entries` from `src/entry.rs` (lines 218-291).  When a path is given:
a missing path yields `Ok(vec![])`; an existing non-directory yields a
one-element vector whose metadata failure is fatal (`std::process::exit(1)`);
otherwise (and when no path is given) the directory is enumerated and
sorted. -/
def get_entries (dirPath : Option PathView) (dir : DirRead) (flags : Flags) :
    Except LsErr (List Entry) :=
  match dirPath with
  | some p =>
    if !p.pathExists then .ok []
    else if !p.isDir then
      match p.meta with
      | some m => .ok [⟨p.fileName, FileType.File, m⟩]
      | none => .error .procExit
    else listDirectory dir flags
  | none => listDirectory dir flags

/-! ## Rendering (`Entry::print_to` in `src/entry.rs`, lines 54-104, and the
printing loop of `main` in `src/main.rs`, lines 247-272) -/

def Entry.get_permissions (e : Entry) : String := parse_permissions e.metadata.mode

def Entry.get_links (e : Entry) : String := toString e.metadata.nlink

def Entry.get_owners (e : Entry) : String := e.metadata.owner ++ " " ++ e.metadata.group

def Entry.get_modified_time (e : Entry) : String := e.metadata.modifiedStr

/-- `Entry::print_to` from `src/entry.rs`: everything one entry writes.  In
stream mode only the bare name is written and the function returns at once.
ANSI color/bold codes from the `colored` crate are omitted: the crate
suppresses them whenever stdout is not a tty, so the text modelled here is
the piped output byte for byte.  The long-listing and size columns go through
the panicking `bytes_to_human` of `entry.rs`, whose abnormal outcome
propagates. -/
def Entry.print_to (e : Entry) (flags : Flags) : Except String String := do
  if flags.stream_output then
    return e.name
  let long ←
    if flags.long_listing then do
      let size ←
        if flags.human then do
          let h ← bytes_to_human_entry e.metadata.size
          pure (h ++ " ")
        else pure (toString e.metadata.size ++ " ")
      pure (e.get_permissions ++ " " ++ e.get_links ++ " " ++ e.get_owners ++ " " ++
            size ++ e.get_modified_time ++ " ")
    else pure ""
  if e.type = FileType.Dir then
    -- the `show_size` arm for directories writes the empty string
    return long ++ e.name ++ "/"
  let sizeCol ←
    if flags.show_size && !flags.long_listing then
      if flags.human then do
        let h ← bytes_to_human_entry e.metadata.size
        pure (h ++ "\t")
      else pure (toString e.metadata.size ++ "\t")
    else pure ""
  return long ++ sizeCol ++ e.name

/-- The `enumerate().try_for_each` printing loop of `main`
(`src/main.rs`, lines 253-266): `", "` before every entry except the first in
stream mode, a newline after every entry otherwise. -/
def renderLoop (flags : Flags) : Nat → List Entry → Except String String
  | _, [] => .ok ""
  | index, e :: es => do
    let sep := if index != 0 && flags.stream_output then ", " else ""
    let s ← e.print_to flags
    let rest ← renderLoop flags (index + 1) es
    pure (sep ++ s ++ (if flags.stream_output then "" else "\n") ++ rest)

/-- Everything `main` writes to stdout for a final entry list. -/
def render_entries (flags : Flags) (entries : List Entry) : Except String String :=
  renderLoop flags 0 entries

/-! ## Order-theoretic facts about the comparator -/

theorem then_swap (o₁ o₂ : Ordering) : (o₁.then o₂).swap = o₁.swap.then o₂.swap := by
  cases o₁ <;> cases o₂ <;> rfl

theorem then_ne_gt (o₁ o₂ : Ordering) :
    o₁.then o₂ ≠ .gt ↔ o₁ = .lt ∨ (o₁ = .eq ∧ o₂ ≠ .gt) := by
  cases o₁ <;> cases o₂ <;> decide

theorem natCompare_swap (a b : Nat) : (compare a b).swap = compare b a := by
  rcases Nat.lt_trichotomy a b with h | h | h
  · rw [Nat.compare_eq_lt.mpr h, Nat.compare_eq_gt.mpr h]; rfl
  · subst h; rw [Nat.compare_eq_eq.mpr rfl]; rfl
  · rw [Nat.compare_eq_gt.mpr h, Nat.compare_eq_lt.mpr h]; rfl

theorem optNatCmp_swap (x y : Option Nat) : (optNatCmp x y).swap = optNatCmp y x := by
  cases x <;> cases y <;> first | rfl | simp [optNatCmp, natCompare_swap]

theorem optNatCmp_eq_iff (x y : Option Nat) : optNatCmp x y = .eq ↔ x = y := by
  cases x <;> cases y <;> simp [optNatCmp, Nat.compare_eq_eq]

theorem optNatCmp_lt_trans {x y z : Option Nat} (h₁ : optNatCmp x y = .lt)
    (h₂ : optNatCmp y z = .lt) : optNatCmp x z = .lt := by
  cases x <;> cases y <;> cases z <;>
    simp_all [optNatCmp, Nat.compare_eq_lt] <;> omega

theorem optNatCmp_not_gt_trans {x y z : Option Nat} (h₁ : optNatCmp x y ≠ .gt)
    (h₂ : optNatCmp y z ≠ .gt) : optNatCmp x z ≠ .gt := by
  cases x <;> cases y <;> cases z <;>
    simp_all [optNatCmp, Nat.compare_eq_gt] <;> omega

theorem keyCmp_swap (k₁ k₂ : Option Nat × Option Nat) :
    (keyCmp k₁ k₂).swap = keyCmp k₂ k₁ := by
  simp [keyCmp, then_swap, optNatCmp_swap]

theorem keyCmp_not_gt_trans {k₁ k₂ k₃ : Option Nat × Option Nat}
    (h₁ : keyCmp k₁ k₂ ≠ .gt) (h₂ : keyCmp k₂ k₃ ≠ .gt) : keyCmp k₁ k₃ ≠ .gt := by
  simp only [keyCmp] at h₁ h₂ ⊢
  rw [then_ne_gt] at h₁ h₂ ⊢
  rcases h₁ with h₁ | ⟨h₁e, h₁s⟩
  · rcases h₂ with h₂ | ⟨h₂e, h₂s⟩
    · exact Or.inl (optNatCmp_lt_trans h₁ h₂)
    · rw [optNatCmp_eq_iff] at h₂e
      rw [← h₂e]
      exact Or.inl h₁
  · rw [optNatCmp_eq_iff] at h₁e
    rcases h₂ with h₂ | ⟨h₂e, h₂s⟩
    · rw [h₁e]
      exact Or.inl h₂
    · rw [optNatCmp_eq_iff] at h₂e
      refine Or.inr ⟨?_, optNatCmp_not_gt_trans h₁s h₂s⟩
      rw [optNatCmp_eq_iff]
      exact h₁e.trans h₂e

/-- The comparator after its `FileType` head: the possibly-reversed composite
key comparison (definitionally the tail of `entryCmp`). -/
def subCmp (flags : Flags) (a b : Entry) : Ordering :=
  let ordering := keyCmp (entryKey flags a) (entryKey flags b)
  if flags.reverse_sort then ordering.swap else ordering

theorem entryCmp_eq_then (flags : Flags) (a b : Entry) :
    entryCmp flags a b = (FileType.cmp a.type b.type).then (subCmp flags a b) := rfl

theorem subCmp_swap (flags : Flags) (a b : Entry) :
    (subCmp flags a b).swap = subCmp flags b a := by
  rcases Bool.eq_false_or_eq_true flags.reverse_sort with hr | hr <;>
    simp [subCmp, hr, keyCmp_swap, Ordering.swap_swap]

theorem subCmp_not_gt_trans (flags : Flags) {a b c : Entry}
    (h₁ : subCmp flags a b ≠ .gt) (h₂ : subCmp flags b c ≠ .gt) :
    subCmp flags a c ≠ .gt := by
  cases hr : flags.reverse_sort
  · simp only [subCmp, hr, Bool.false_eq_true, if_false] at h₁ h₂ ⊢
    exact keyCmp_not_gt_trans h₁ h₂
  · simp only [subCmp, hr, if_true] at h₁ h₂ ⊢
    rw [keyCmp_swap] at h₁ h₂ ⊢
    exact keyCmp_not_gt_trans h₂ h₁

theorem ftcmp_swap (s t : FileType) : (FileType.cmp s t).swap = FileType.cmp t s := by
  cases s <;> cases t <;> rfl

theorem ftcmp_eq_iff (s t : FileType) : FileType.cmp s t = .eq ↔ s = t := by
  cases s <;> cases t <;> decide

theorem ftcmp_lt_iff (s t : FileType) :
    FileType.cmp s t = .lt ↔ s = FileType.Dir ∧ t = FileType.File := by
  cases s <;> cases t <;> decide

theorem entryCmp_swap (flags : Flags) (a b : Entry) :
    (entryCmp flags a b).swap = entryCmp flags b a := by
  rw [entryCmp_eq_then, entryCmp_eq_then, then_swap, ftcmp_swap, subCmp_swap]

theorem ordBne_iff (o : Ordering) : (o != Ordering.gt) = true ↔ o ≠ Ordering.gt := by
  cases o <;> decide

theorem entryLe_total (flags : Flags) (a b : Entry) :
    entryLe flags a b = true ∨ entryLe flags b a = true := by
  simp only [entryLe, ordBne_iff]
  by_cases h : entryCmp flags a b = Ordering.gt
  · right
    rw [← entryCmp_swap flags a b, h]
    decide
  · left; exact h

theorem entryLe_trans (flags : Flags) (a b c : Entry)
    (h₁ : entryLe flags a b = true) (h₂ : entryLe flags b c = true) :
    entryLe flags a c = true := by
  simp only [entryLe, ordBne_iff, entryCmp_eq_then] at h₁ h₂ ⊢
  rw [then_ne_gt] at h₁ h₂ ⊢
  rcases h₁ with h₁ | ⟨h₁e, h₁s⟩
  · rw [ftcmp_lt_iff] at h₁
    rcases h₂ with h₂ | ⟨h₂e, h₂s⟩
    · rw [ftcmp_lt_iff] at h₂
      rw [h₁.2] at h₂
      exact absurd h₂.1 (by decide)
    · rw [ftcmp_eq_iff] at h₂e
      exact Or.inl ((ftcmp_lt_iff _ _).mpr ⟨h₁.1, h₂e ▸ h₁.2⟩)
  · rw [ftcmp_eq_iff] at h₁e
    rcases h₂ with h₂ | ⟨h₂e, h₂s⟩
    · rw [ftcmp_lt_iff] at h₂
      exact Or.inl ((ftcmp_lt_iff _ _).mpr ⟨h₁e.trans h₂.1, h₂.2⟩)
    · rw [ftcmp_eq_iff] at h₂e
      refine Or.inr ⟨(ftcmp_eq_iff _ _).mpr (h₁e.trans h₂e), ?_⟩
      exact subCmp_not_gt_trans flags h₁s h₂s

/-! ## Sortedness of the insertion sort -/

theorem mem_insertBy {α : Type} (le : α → α → Bool) (a x : α) (l : List α) :
    x ∈ insertBy le a l ↔ x = a ∨ x ∈ l := by
  induction l with
  | nil => simp [insertBy]
  | cons b bs ih =>
    by_cases h : le a b = true
    · simp only [insertBy, if_pos h, List.mem_cons]
    · simp only [insertBy, if_neg h, List.mem_cons, ih]
      tauto

theorem pairwise_insertBy {α : Type} {le : α → α → Bool}
    (htr : ∀ x y z, le x y = true → le y z = true → le x z = true)
    (hto : ∀ x y, le x y = true ∨ le y x = true)
    (a : α) {l : List α} (h : l.Pairwise (fun x y => le x y = true)) :
    (insertBy le a l).Pairwise (fun x y => le x y = true) := by
  induction l with
  | nil => simp [insertBy]
  | cons b bs ih =>
    rcases List.pairwise_cons.mp h with ⟨hb, hbs⟩
    by_cases hab : le a b = true
    · rw [show insertBy le a (b :: bs) = a :: b :: bs by simp [insertBy, hab]]
      refine List.pairwise_cons.mpr ⟨?_, h⟩
      intro x hx
      rcases List.mem_cons.mp hx with rfl | hx
      · exact hab
      · exact htr a b x hab (hb x hx)
    · rw [show insertBy le a (b :: bs) = b :: insertBy le a bs by simp [insertBy, hab]]
      refine List.pairwise_cons.mpr ⟨?_, ih hbs⟩
      intro x hx
      rcases (mem_insertBy le a x bs).mp hx with rfl | hx
      · rcases hto x b with hc | hc
        · exact absurd hc hab
        · exact hc
      · exact hb x hx

theorem pairwise_sortBy {α : Type} {le : α → α → Bool}
    (htr : ∀ x y z, le x y = true → le y z = true → le x z = true)
    (hto : ∀ x y, le x y = true ∨ le y x = true)
    (l : List α) :
    (sortBy le l).Pairwise (fun x y => le x y = true) := by
  induction l with
  | nil => simp [sortBy]
  | cons a as ih => exact pairwise_insertBy htr hto a ih

/-! ## Facts relating the executable floor logarithm to `Nat.log` -/

theorem ilogAux_eq_log {fuel n : Nat} (h : n ≤ fuel) : ilogAux fuel n = Nat.log 1024 n := by
  induction fuel generalizing n with
  | zero =>
    have hn : n = 0 := by omega
    subst hn
    simp [ilogAux]
  | succ fuel ih =>
    show (if n < 1024 then 0 else ilogAux fuel (n / 1024) + 1) = Nat.log 1024 n
    by_cases hn : n < 1024
    · rw [if_pos hn]
      exact (Nat.log_eq_zero_iff.mpr (Or.inl hn)).symm
    · rw [if_neg hn]
      have hlt : n / 1024 < n := Nat.div_lt_self (by omega) (by omega)
      rw [ih (by omega), Nat.log_div_base]
      have hpos : 0 < Nat.log 1024 n := Nat.log_pos (by omega) (by omega)
      omega

theorem ilog1024_eq_log (n : Nat) : ilog1024 n = Nat.log 1024 n :=
  ilogAux_eq_log (Nat.le_refl n)

/-- Unfolding of `bytes_to_human` on a positive byte count. -/
theorem bytes_to_human_pos (bytes : Nat) (h : bytes ≠ 0) :
    bytes_to_human bytes =
      if min (ilog1024 bytes) (UNITS.length - 1) = 0 then
        toString bytes ++ UNITS.getD (min (ilog1024 bytes) (UNITS.length - 1)) ""
      else
        toString (roundTenths bytes (1024 ^ min (ilog1024 bytes) (UNITS.length - 1)) / 10) ++
          "." ++
          toString (roundTenths bytes (1024 ^ min (ilog1024 bytes) (UNITS.length - 1)) % 10) ++
          UNITS.getD (min (ilog1024 bytes) (UNITS.length - 1)) "" := by
  rw [bytes_to_human, if_neg h]

theorem toString_lt10_len {m : Nat} (h : m < 10) : (toString m).length = 1 := by
  interval_cases m <;> rfl

/-- **C6.** `bytes_to_human` renders 0, 1024, 1536 and 500 bytes as `"0B"`,
`"1.0K"`, `"1.5K"` and `"500B"`; and for every positive byte count the unit
suffix sits at the integer base-1024 logarithm of the count clamped to the
last unit, with the `B` unit printed as the raw integer (no forced decimal
places) and every higher unit printed with exactly one decimal digit. -/
theorem C6_bytes_to_human_spec :
    bytes_to_human 0 = "0B" ∧ bytes_to_human 1024 = "1.0K" ∧
    bytes_to_human 1536 = "1.5K" ∧ bytes_to_human 500 = "500B" ∧
    ∀ bytes : Nat, 0 < bytes →
      (min (Nat.log 1024 bytes) (UNITS.length - 1) = 0 →
        bytes_to_human bytes = toString bytes ++ "B") ∧
      (0 < min (Nat.log 1024 bytes) (UNITS.length - 1) →
        ∃ t : Nat,
          bytes_to_human bytes =
            toString (t / 10) ++ "." ++ toString (t % 10) ++
              UNITS.getD (min (Nat.log 1024 bytes) (UNITS.length - 1)) "" ∧
          (toString (t % 10)).length = 1) := by
  refine ⟨by decide, by decide, by decide, by decide, ?_⟩
  intro bytes hb
  have hmin : min (ilog1024 bytes) (UNITS.length - 1) =
      min (Nat.log 1024 bytes) (UNITS.length - 1) := by
    rw [ilog1024_eq_log]
  rw [bytes_to_human_pos bytes (by omega), hmin]
  constructor
  · intro h0
    rw [if_pos h0, h0]
    rfl
  · intro hpos
    rw [if_neg (by omega)]
    exact ⟨roundTenths bytes (1024 ^ min (Nat.log 1024 bytes) (UNITS.length - 1)),
      rfl, toString_lt10_len (Nat.mod_lt _ (by omega))⟩

/-- Witness for C6: the general clause instantiated at 2048 bytes (unit `K`). -/
theorem C6_bytes_to_human_spec_witness :
    ∃ t : Nat,
      bytes_to_human 2048 =
        toString (t / 10) ++ "." ++ toString (t % 10) ++
          UNITS.getD (min (Nat.log 1024 2048) (UNITS.length - 1)) "" ∧
      (toString (t % 10)).length = 1 :=
  (C6_bytes_to_human_spec.2.2.2.2 2048 (by omega)).2 (by
    have h1 : Nat.log 1024 2048 = 1 :=
      Nat.log_eq_of_pow_le_of_lt_pow (by norm_num) (by norm_num)
    rw [h1]
    decide)

/-! ## Permission strings -/

theorem triplet_eq_rwxOf (m r w x : Nat) :
    triplet m r w x = rwxOf (m &&& r != 0) (m &&& w != 0) (m &&& x != 0) := by
  unfold triplet
  rcases h₁ : m &&& r with _ | a <;> rcases h₂ : m &&& w with _ | b <;>
    rcases h₃ : m &&& x with _ | c <;> rfl

theorem rwxOf_length (r w x : Bool) : (rwxOf r w x).length = 3 := by
  cases r <;> cases w <;> cases x <;> rfl

theorem triplet_length (m r w x : Nat) : (triplet m r w x).length = 3 := by
  rw [triplet_eq_rwxOf, rwxOf_length]

/-- **C8.** For every mode word the permission string is the concatenation of
three independently computed rwx triplets (user, group, other), hence exactly
9 characters; and the mode granting rw to owner, r to group and nothing to
other renders as `"rw-r-----"`. -/
theorem C8_parse_permissions (mode : Nat) :
    parse_permissions mode =
        rwxOf (mode &&& S_IRUSR != 0) (mode &&& S_IWUSR != 0) (mode &&& S_IXUSR != 0) ++
        rwxOf (mode &&& S_IRGRP != 0) (mode &&& S_IWGRP != 0) (mode &&& S_IXGRP != 0) ++
        rwxOf (mode &&& S_IROTH != 0) (mode &&& S_IWOTH != 0) (mode &&& S_IXOTH != 0) ∧
    (parse_permissions mode).length = 9 ∧
    parse_permissions 0o640 = "rw-r-----" := by
  refine ⟨?_, ?_, by decide⟩
  · simp only [parse_permissions, triplet_eq_rwxOf]
  · simp only [parse_permissions, String.length_append, triplet_length]

/-! ## Totality of the padded size formatter (`pad_str`) -/

theorem pad_str_error_iff (s : String) :
    pad_str s = .error "attempt to subtract with overflow" ↔ 6 < s.length := by
  by_cases h : s.length ≤ 6
  · simp only [pad_str, if_pos h]
    constructor
    · intro hc
      exfalso
      revert hc
      split <;> intro hc <;> exact Except.noConfusion hc
    · omega
  · simp only [pad_str, if_neg h]
    exact ⟨fun _ => by omega, fun _ => trivial⟩

/-- **C10 counterexample.** 1048064 bytes render as `"1023.5K"` (7
characters), so the `usize` width computation `6 - len` in `pad_str`
overflows and the `entry.rs` `bytes_to_human` panics instead of returning. -/
theorem C10_counterexample :
    bytes_to_human_entry 1048064 = .error "attempt to subtract with overflow" := rfl

/-- **C10 (amended).** The padded formatter of `entry.rs` returns normally
exactly for byte counts whose rendered size string is at most 6 characters;
for any longer rendering the width computation underflows and the call
panics. -/
theorem C10_pad_total_iff (bytes : Nat) :
    bytes_to_human_entry bytes = .error "attempt to subtract with overflow" ↔
      6 < (bytes_to_human bytes).length :=
  pad_str_error_iff (bytes_to_human bytes)

/-! ## Concrete fixtures used across the remaining theorems -/

/-- A metadata record with all fields at their simplest values. -/
def defaultMeta : Metadata := ⟨0, none, 0, 0, "", "", ""⟩

/-- The configuration with every flag off (plain `lsrs`). -/
def flagsDefault : Flags := ⟨false, false, false, false, false, false, false, false⟩

/-- `lsrs -S`. -/
def flagsSizeSort : Flags := ⟨false, false, false, false, true, false, false, false⟩

/-- `lsrs -S -r`. -/
def flagsSizeSortRev : Flags := ⟨false, false, false, true, true, false, false, false⟩

/-- `lsrs -S -t`. -/
def flagsBothSorts : Flags := ⟨false, false, false, false, true, false, true, false⟩

/-- A file entry of the given name and size. -/
def mkFile (n : String) (sz : Nat) : Entry :=
  ⟨n, FileType.File, { defaultMeta with size := sz }⟩

/-- An entry carrying nothing but a name. -/
def plainEntry (n : String) : Entry := ⟨n, FileType.File, defaultMeta⟩

/-- Two file entries agreeing on every sort key (same size, same elapsed
time) but with different names. -/
def eTieA : Entry := ⟨"x", FileType.File, { defaultMeta with size := 5 }⟩

def eTieB : Entry := ⟨"y", FileType.File, { defaultMeta with size := 5 }⟩

/-- The ordering property C1 asserts of a listing: no file entry appears
anywhere before a directory entry (equivalently, every directory precedes
every file). -/
def DirsBeforeFiles (l : List Entry) : Prop :=
  l.Pairwise (fun a b => ¬(a.type = FileType.File ∧ b.type = FileType.Dir))

/-! ## C1: directories before files -/

/-- **C1 counterexample.** With no sort flag set the sort block of
`get_entries` is skipped entirely, so the listing keeps raw collection
order: a directory enumerated after a file stays after it. -/
theorem C1_counterexample :
    get_entries none
        ⟨true, [⟨"b.txt", some FileType.File, some defaultMeta⟩,
                ⟨"subdir", some FileType.Dir, some defaultMeta⟩]⟩ flagsDefault =
      .ok [⟨"b.txt", FileType.File, defaultMeta⟩, ⟨"subdir", FileType.Dir, defaultMeta⟩] ∧
    ¬ DirsBeforeFiles
        [⟨"b.txt", FileType.File, defaultMeta⟩, ⟨"subdir", FileType.Dir, defaultMeta⟩] := by
  constructor
  · rfl
  · unfold DirsBeforeFiles
    decide

/-- **C1 (amended).** Whenever at least one of sort-by-size and
sort-by-modified-time is active, the sorted listing places every directory
entry before every file entry, for every configuration of the remaining
flags (the reverse flag never touches the kind key); with no sort flag the
collection order is returned untouched. -/
theorem C1_dirs_first (flags : Flags) (entries : List Entry)
    (h : (flags.sort_by_size || flags.sort_by_modified_time) = true) :
    DirsBeforeFiles (sortEntries flags entries) := by
  rw [sortEntries, if_pos h]
  have hp := pairwise_sortBy (entryLe_trans flags) (entryLe_total flags) entries
  refine hp.imp ?_
  intro a b hle
  rintro ⟨ha, hb⟩
  rw [entryLe, ordBne_iff] at hle
  apply hle
  rw [entryCmp_eq_then, ha, hb]
  rfl

/-- Witness for C1: the amended theorem applied to a sorted two-entry
listing. -/
theorem C1_dirs_first_witness :
    DirsBeforeFiles (sortEntries flagsSizeSort
      [⟨"b.txt", FileType.File, defaultMeta⟩, ⟨"subdir", FileType.Dir, defaultMeta⟩]) :=
  C1_dirs_first flagsSizeSort _ (by decide)

/-! ## C2: per-entry read failures during enumeration -/

/-- **C2 counterexample.** A per-entry metadata read failure during
enumeration hits the `eprintln! + std::process::exit(1)` arm of
`get_entries` in `entry.rs`: the process terminates instead of skipping the
entry. -/
theorem C2_counterexample :
    get_entries none ⟨true, [⟨"a.txt", some FileType.File, none⟩]⟩ flagsDefault =
      .error LsErr.procExit := rfl

/-- **C2 (amended).** During enumeration a per-entry file-type read failure
causes exactly that entry to be skipped (silently) and never errors the
listing; a per-entry metadata read failure on a surviving entry terminates
the process. -/
theorem C2_per_entry_failures (flags : Flags) (r : RawEntry) (rs : List RawEntry) :
    (r.fileType = none → collectEntries flags (r :: rs) = collectEntries flags rs) ∧
    (∀ t : FileType, r.fileType = some t → r.metadata = none →
      (!flags.show_hidden && is_hidden_folder r.name) = false →
      collectEntries flags (r :: rs) = .error LsErr.procExit) := by
  constructor
  · intro hft
    rw [collectEntries]
    by_cases hh : (!flags.show_hidden && is_hidden_folder r.name) = true
    · rw [if_pos hh]
    · rw [if_neg hh, hft]
  · intro t hft hm hh
    rw [collectEntries, if_neg (by simp [hh]), hft, hm]

/-- Witness for C2: both amended clauses at concrete entries. -/
theorem C2_per_entry_failures_witness :
    collectEntries flagsDefault [⟨"a.txt", none, some defaultMeta⟩] =
      collectEntries flagsDefault [] ∧
    collectEntries flagsDefault [⟨"b.txt", some FileType.File, none⟩] =
      .error LsErr.procExit :=
  ⟨(C2_per_entry_failures flagsDefault ⟨"a.txt", none, some defaultMeta⟩ []).1 rfl,
   (C2_per_entry_failures flagsDefault ⟨"b.txt", some FileType.File, none⟩ []).2
     FileType.File rfl rfl (by decide)⟩

/-! ## C3: sorting by size, and the size/recency composite -/

theorem eq_then (o : Ordering) : Ordering.eq.then o = o := rfl

/-- **C3.** With sort-by-size alone, files of sizes 10, 100 and 1 come out
largest first (100, 10, 1); with reverse also set they come out smallest
first (1, 10, 100); and with both sort flags set entries of equal kind
compare by size first, falling back to the recency comparison only when the
sizes tie. -/
theorem C3_sort_by_size :
    sortEntries flagsSizeSort [mkFile "a" 10, mkFile "b" 100, mkFile "c" 1] =
      [mkFile "b" 100, mkFile "a" 10, mkFile "c" 1] ∧
    sortEntries flagsSizeSortRev [mkFile "a" 10, mkFile "b" 100, mkFile "c" 1] =
      [mkFile "c" 1, mkFile "a" 10, mkFile "b" 100] ∧
    ∀ (flags : Flags) (a b : Entry),
      flags.sort_by_size = true → flags.sort_by_modified_time = true →
      a.type = b.type →
      a.metadata.size ≤ U64_MAX → b.metadata.size ≤ U64_MAX →
      (a.metadata.size = b.metadata.size →
        entryCmp flags a b =
          (if flags.reverse_sort then
              (optNatCmp a.metadata.modifiedElapsed b.metadata.modifiedElapsed).swap
            else optNatCmp a.metadata.modifiedElapsed b.metadata.modifiedElapsed)) ∧
      (b.metadata.size < a.metadata.size →
        entryCmp flags a b = (if flags.reverse_sort then Ordering.gt else Ordering.lt)) := by
  refine ⟨by decide, by decide, ?_⟩
  intro flags a b hs hm ht ha hb
  have hteq : FileType.cmp a.type b.type = .eq := (ftcmp_eq_iff _ _).mpr ht
  constructor
  · intro hsz
    have hk : keyCmp (entryKey flags a) (entryKey flags b) =
        optNatCmp a.metadata.modifiedElapsed b.metadata.modifiedElapsed := by
      simp only [entryKey, hs, hm, if_true, keyCmp]
      have hc : optNatCmp (some (U64_MAX - a.metadata.size))
          (some (U64_MAX - b.metadata.size)) = Ordering.eq := by
        rw [hsz]
        exact Nat.compare_eq_eq.mpr rfl
      rw [hc, eq_then]
    rw [entryCmp_eq_then, hteq, eq_then, subCmp, hk]
  · intro hsz
    have hk : keyCmp (entryKey flags a) (entryKey flags b) = Ordering.lt := by
      simp only [entryKey, hs, hm, if_true, keyCmp]
      have hc : optNatCmp (some (U64_MAX - a.metadata.size))
          (some (U64_MAX - b.metadata.size)) = Ordering.lt := by
        show compare (U64_MAX - a.metadata.size) (U64_MAX - b.metadata.size) = Ordering.lt
        exact Nat.compare_eq_lt.mpr (by omega)
      rw [hc]
      rfl
    rw [entryCmp_eq_then, hteq, eq_then, subCmp, hk]
    cases hr : flags.reverse_sort <;> rfl

/-- Witness for C3: the composite-key clause at two tied sizes with distinct
recency keys. -/
theorem C3_sort_by_size_witness :
    entryCmp flagsBothSorts
        ⟨"x", FileType.File, { defaultMeta with size := 5, modifiedElapsed := some 3 }⟩
        ⟨"y", FileType.File, { defaultMeta with size := 5, modifiedElapsed := some 7 }⟩ =
      (if flagsBothSorts.reverse_sort then
          (optNatCmp (some 3) (some 7)).swap
        else optNatCmp (some 3) (some 7)) :=
  (C3_sort_by_size.2.2 flagsBothSorts
    ⟨"x", FileType.File, { defaultMeta with size := 5, modifiedElapsed := some 3 }⟩
    ⟨"y", FileType.File, { defaultMeta with size := 5, modifiedElapsed := some 7 }⟩
    rfl rfl rfl (by decide) (by decide)).1 rfl

/-! ## C4: reverse with no sort flag -/

/-- **C4.** When neither sort flag is set the sort block never runs, so
setting or clearing the reverse flag yields the same output order. -/
theorem C4_reverse_alone_noop (flags : Flags) (entries : List Entry)
    (h₁ : flags.sort_by_size = false) (h₂ : flags.sort_by_modified_time = false) :
    sortEntries { flags with reverse_sort := true } entries =
      sortEntries { flags with reverse_sort := false } entries := by
  simp [sortEntries, h₁, h₂]

/-- Witness for C4: the theorem at the all-off configuration and a small
listing. -/
theorem C4_reverse_alone_noop_witness :
    sortEntries { flagsDefault with reverse_sort := true }
        [mkFile "a" 10, ⟨"d", FileType.Dir, defaultMeta⟩] =
      sortEntries { flagsDefault with reverse_sort := false }
        [mkFile "a" 10, ⟨"d", FileType.Dir, defaultMeta⟩] :=
  C4_reverse_alone_noop flagsDefault _ rfl rfl

/-! ## C5: stability of the sort on ties -/

/-- **C5.** The code sorts with `slice::sort_unstable_by`, whose contract
(`SortSpecOf`) guarantees only a permutation ordered by the comparator.
That contract admits an output in which two entries with equal composite
keys appear in the opposite of their enumeration order, so the code does not
guarantee the stability the claim asserts. -/
theorem C5_unstable_sort_ties :
    SortSpecOf flagsSizeSort [eTieA, eTieB] [eTieB, eTieA] ∧
    eTieA ≠ eTieB ∧ entryCmp flagsSizeSort eTieA eTieB = Ordering.eq := by
  refine ⟨⟨by decide, by decide⟩, by decide, by decide⟩

/-! ## C7: stream mode output -/

/-- In stream mode `print_to` writes the bare name and nothing else. -/
theorem print_to_stream (flags : Flags) (h : flags.stream_output = true) (e : Entry) :
    e.print_to flags = .ok e.name := by
  simp only [Entry.print_to, h]
  rfl

/-- In stream mode every entry after the first is preceded by `", "` and
followed by nothing. -/
theorem renderLoop_stream (flags : Flags) (h : flags.stream_output = true)
    (es : List Entry) (i : Nat) :
    renderLoop flags (i + 1) es =
      .ok (es.foldr (fun b acc => ", " ++ b.name ++ acc) "") := by
  induction es generalizing i with
  | nil => rfl
  | cons e es ih =>
    rw [renderLoop]
    simp [print_to_stream flags h, h, ih, Except.bind]
    rfl

/-- **C7.** In stream mode the rendered output is the names joined by
`", "`: nothing before the first entry, `", "` before every later entry, no
trailing separator or newline — for every configuration of the remaining
flags; in particular entries named `a`, `b`, `c` render as exactly
`"a, b, c"`. -/
theorem C7_stream_mode (flags : Flags) (h : flags.stream_output = true) :
    (∀ (e : Entry) (es : List Entry),
      render_entries flags (e :: es) =
        .ok (e.name ++ es.foldr (fun b acc => ", " ++ b.name ++ acc) "")) ∧
    render_entries flags [plainEntry "a", plainEntry "b", plainEntry "c"] =
      .ok "a, b, c" := by
  have hmain : ∀ (e : Entry) (es : List Entry),
      render_entries flags (e :: es) =
        .ok (e.name ++ es.foldr (fun b acc => ", " ++ b.name ++ acc) "") := by
    intro e es
    rw [render_entries, renderLoop]
    simp [print_to_stream flags h, h, renderLoop_stream flags h, Except.bind]
    rfl
  refine ⟨hmain, ?_⟩
  rw [hmain]
  rfl

/-- Witness for C7: the concrete three-entry rendering under `lsrs -m`. -/
theorem C7_stream_mode_witness :
    render_entries ⟨false, false, false, false, false, false, false, true⟩
        [plainEntry "a", plainEntry "b", plainEntry "c"] = .ok "a, b, c" :=
  (C7_stream_mode ⟨false, false, false, false, false, false, false, true⟩ rfl).2

/-! ## C9: the explicitly named path -/

/-- **C9.** A nonexistent target path yields `Ok` with the empty listing;
an existing non-directory path yields exactly one entry for that path, and
the process terminates precisely when its metadata cannot be read. -/
theorem C9_explicit_path (p : PathView) (dir : DirRead) (flags : Flags) :
    (p.pathExists = false → get_entries (some p) dir flags = .ok []) ∧
    (p.pathExists = true → p.isDir = false →
      (∀ m : Metadata, p.meta = some m →
        get_entries (some p) dir flags = .ok [⟨p.fileName, FileType.File, m⟩]) ∧
      (p.meta = none → get_entries (some p) dir flags = .error LsErr.procExit)) := by
  refine ⟨?_, ?_⟩
  · intro h
    simp [get_entries, h]
  · intro he hd
    constructor
    · intro m hm
      simp [get_entries, he, hd, hm]
    · intro hm
      simp [get_entries, he, hd, hm]

/-- Witness for C9: all three clauses at concrete paths. -/
theorem C9_explicit_path_witness :
    get_entries (some ⟨false, true, "gone", none⟩) ⟨true, []⟩ flagsDefault = .ok [] ∧
    get_entries (some ⟨true, false, "file.txt", some defaultMeta⟩) ⟨true, []⟩ flagsDefault =
      .ok [⟨"file.txt", FileType.File, defaultMeta⟩] ∧
    get_entries (some ⟨true, false, "file.txt", none⟩) ⟨true, []⟩ flagsDefault =
      .error LsErr.procExit :=
  ⟨(C9_explicit_path ⟨false, true, "gone", none⟩ ⟨true, []⟩ flagsDefault).1 rfl,
   ((C9_explicit_path ⟨true, false, "file.txt", some defaultMeta⟩ ⟨true, []⟩
       flagsDefault).2 rfl rfl).1 defaultMeta rfl,
   ((C9_explicit_path ⟨true, false, "file.txt", none⟩ ⟨true, []⟩
       flagsDefault).2 rfl rfl).2 rfl⟩

end Lsrs
